import Mathlib

/-!
# Verification development for `src/macros.h`

The header defines three function-like preprocessor macros that emit the
declarations of a class's copy/move special member functions.  The header is
embedded line by line (`macros_h`); the translation phases that give it a
meaning (line splicing, comment removal, lexing, `#define` processing and
macro replacement) are modelled as executable functions, and the three macros
are the functions obtained by running a macro invocation through them.
-/

namespace MacrosH

/-! ## The source text -/

/-- The nineteen physical lines of `src/macros.h`, in order, each without its
terminating new-line character.  A tab is written `\t`, a backslash `\\`. -/
def macros_h : List String :=
  [ "#pragma once",
    "",
    "// A macro to disallow the copy/move constructor and operator= functions",
    "// This should be used in the private: declarations for a class",
    "#define DISALLOW_COPY_MOVE_ASSIGN(TypeName) \\",
    "\tTypeName(const TypeName &) = delete; \\",
    "\tvoid operator=(const TypeName &) = delete; \\",
    "\tTypeName(TypeName &&) = delete; \\",
    "\tvoid operator=(TypeName &&) = delete;",
    "",
    "#define DEFAULT_COPY_MOVE_ASSIGN(TypeName) \\",
    "\tTypeName(const TypeName& other) = default; \\",
    "\tTypeName(TypeName&& other) noexcept = default; \\",
    "\tTypeName& operator=(const TypeName& other) = default; \\",
    "\tTypeName& operator=(TypeName&& other) noexcept = default; \\",
    "",
    "#define DEFAULT_COPY_MOVE_ASSIGN_DESTRUCT(TypeName) \\",
    "\t~TypeName() = default; \\",
    "\tDEFAULT_COPY_MOVE_ASSIGN(TypeName) \\" ]

/-! ## Translation phase 2: line splicing -/

/-- Whether a physical line ends in a backslash, so that the new-line after it
is deleted and the next physical line continues it. -/
def endsWithBackslash (l : List Char) : Bool :=
  l.getLast? == some '\\'

/-- Phase 2.  Each backslash immediately followed by a new-line is deleted,
splicing physical lines into logical lines.  A file whose last line ends in a
backslash is processed as if one more (empty) line followed it. -/
def splice : List (List Char) → List (List Char)
  | [] => []
  | l :: rest =>
    if endsWithBackslash l then
      match splice rest with
      | [] => [l.dropLast]
      | next :: more => (l.dropLast ++ next) :: more
    else l :: splice rest

/-- The logical source lines of a file given by its physical lines. -/
def logicalLines (file : List String) : List (List Char) :=
  splice (file.map String.toList)

/-! ## Translation phase 3: comments and preprocessing tokens -/

/-- Preprocessing tokens.  White space is kept as a token of its own because
the shape of a `#define` depends on it: the macro is function-like only when
the opening parenthesis follows the name with no white space between. -/
inductive Token where
  | ident (s : String)
  | number (s : String)
  | punct (s : String)
  | space
  deriving DecidableEq, Repr

/-- A `//` comment runs to the end of its logical line and is replaced by one
space.  (Block comments and string literals are not modelled: the header has
none.) -/
def stripLineComment : List Char → List Char
  | [] => []
  | [c] => [c]
  | c₁ :: c₂ :: cs =>
    if c₁ = '/' ∧ c₂ = '/' then [' '] else c₁ :: stripLineComment (c₂ :: cs)

/-- Characters of identifiers and of preprocessing numbers. -/
def isWordChar (c : Char) : Bool :=
  c.isAlphanum || c == '_'

/-- White-space characters inside a logical line. -/
def isBlank (c : Char) : Bool :=
  c == ' ' || c == '\t' || c == '\x0b' || c == '\x0c' || c == '\r'

/-- The token for a maximal run of word characters, given in reverse. -/
def flushWord (acc : List Char) : List Token :=
  match acc.reverse with
  | [] => []
  | c :: cs =>
    if c.isDigit then [Token.number (String.mk (c :: cs))]
    else [Token.ident (String.mk (c :: cs))]

/-- Lexing into identifiers, numbers, white space and single-character
punctuators; `acc` is the word read so far, in reverse. -/
def lexAux : List Char → List Char → List Token
  | [], acc => flushWord acc
  | c :: cs, acc =>
    if isWordChar c then lexAux cs (c :: acc)
    else if isBlank c then flushWord acc ++ Token.space :: lexAux cs []
    else flushWord acc ++ Token.punct (String.singleton c) :: lexAux cs []

/-- The two-character punctuators of C++ (maximal munch joins two adjacent
single-character punctuators into one of these). -/
def twoCharPunctuators : List String :=
  [ "&&", "||", "::", "->", "==", "!=", "<=", ">=", "<<", ">>", "++", "--",
    "+=", "-=", "*=", "/=", "%=", "&=", "|=", "^=", "##" ]

/-- Joins adjacent single-character punctuators that form a two-character
punctuator. -/
def mergePunct : List Token → List Token
  | [] => []
  | [t] => [t]
  | Token.punct a :: Token.punct b :: rest =>
    if (a ++ b) ∈ twoCharPunctuators then Token.punct (a ++ b) :: mergePunct rest
    else Token.punct a :: mergePunct (Token.punct b :: rest)
  | t :: u :: rest => t :: mergePunct (u :: rest)

/-- Phase 3 on one logical line. -/
def lex (line : List Char) : List Token :=
  mergePunct (lexAux (stripLineComment line) [])

/-- Removes white-space tokens. -/
def dropSpaces (ts : List Token) : List Token :=
  ts.filter (fun t => t != Token.space)

/-- Removes leading white-space tokens. -/
def skipSpaces : List Token → List Token
  | Token.space :: ts => skipSpaces ts
  | ts => ts

/-! ## Translation phase 4: `#define` and macro replacement -/

/-- A macro definition: its name, whether it is function-like, its
parameters and its replacement list (white space removed). -/
structure MacroDef where
  name : String
  functionLike : Bool
  params : List String
  body : List Token
  deriving DecidableEq, Repr

/-- The parameter list of a function-like definition: identifiers separated
by commas up to the closing parenthesis.  Returns the parameters and the
tokens after the parenthesis. -/
def parseParams : List Token → List String → Option (List String × List Token)
  | [], _ => none
  | Token.space :: ts, acc => parseParams ts acc
  | Token.punct p :: ts, acc =>
    if p = ")" then some (acc.reverse, ts)
    else if p = "," then parseParams ts acc
    else none
  | Token.ident s :: ts, acc => parseParams ts (s :: acc)
  | Token.number _ :: _, _ => none

/-- Reads one logical line as a `#define` directive; `none` for any other
line (text, an empty line, another directive such as `#pragma`). -/
def parseDefine (line : List Token) : Option MacroDef :=
  match skipSpaces line with
  | Token.punct h :: r₁ =>
    if h = "#" then
      match skipSpaces r₁ with
      | Token.ident d :: r₂ =>
        if d = "define" then
          match skipSpaces r₂ with
          | Token.ident name :: Token.punct p :: r₃ =>
            if p = "(" then
              match parseParams r₃ [] with
              | some (ps, body) => some ⟨name, true, ps, dropSpaces body⟩
              | none => none
            else some ⟨name, false, [], dropSpaces (Token.punct p :: r₃)⟩
          | Token.ident name :: r₃ => some ⟨name, false, [], dropSpaces r₃⟩
          | _ => none
        else none
      | _ => none
    else none
  | _ => none

/-- The macro definitions a file makes, in order. -/
def definitions (file : List String) : List MacroDef :=
  (logicalLines file).filterMap (fun l => parseDefine (lex l))

/-- The definition in force for a name: the first one in the table, unless
the name is hidden because that very definition is being replaced. -/
def lookupMacro (env : List MacroDef) (hidden : List String) (n : String) : Option MacroDef :=
  if n ∈ hidden then none else env.find? (fun m => m.name == n)

/-- Collects the arguments of an invocation from the tokens after its opening
parenthesis: commas outside nested parentheses separate arguments, the
matching closing parenthesis ends them.  Returns the arguments and the tokens
after the invocation; `none` when the parenthesis is never closed. -/
def collectArgs : List Token → Nat → List Token → List (List Token) →
    Option (List (List Token) × List Token)
  | [], _, _, _ => none
  | t :: ts, depth, cur, done =>
    if t = Token.punct ")" then
      match depth with
      | 0 => some ((cur.reverse :: done).reverse, ts)
      | d + 1 => collectArgs ts d (t :: cur) done
    else if t = Token.punct "(" then collectArgs ts (depth + 1) (t :: cur) done
    else if t = Token.punct "," ∧ depth = 0 then collectArgs ts 0 [] (cur.reverse :: done)
    else collectArgs ts depth (t :: cur) done

/-- Each parameter paired with its argument; an invocation `F()` of a macro
without parameters has the single empty argument.  `none` on an arity
mismatch. -/
def bindArgs (params : List String) (args : List (List Token)) :
    Option (List (String × List Token)) :=
  if params = [] ∧ args = [[]] then some []
  else if params.length = args.length then some (params.zip args)
  else none

/-- Replaces every parameter in a replacement list by its argument.  (The
operators `#` and `##` are not modelled: the header uses neither.) -/
def substitute (binding : List (String × List Token)) : List Token → List Token
  | [] => []
  | Token.ident s :: ts =>
    match binding.lookup s with
    | some arg => arg ++ substitute binding ts
    | none => Token.ident s :: substitute binding ts
  | t :: ts => t :: substitute binding ts

/-- Applies a fallible function to every element; `none` as soon as one
application fails. -/
def mapOption {α β : Type} (f : α → Option β) : List α → Option (List β)
  | [] => some []
  | a :: as =>
    match f a, mapOption f as with
    | some b, some bs => some (b :: bs)
    | _, _ => none

/-- Macro replacement of a token sequence under the definitions `env`.

An identifier that names a definition in force is replaced: an object-like
macro by its replacement list; a function-like macro, when an opening
parenthesis follows, by its replacement list with each parameter replaced by
the fully macro-replaced argument.  The result is rescanned with the name of
the macro being replaced hidden (the rescan covers the replacement alone, not
the tokens that follow the invocation).  A function-like macro name that is
not followed by a parenthesis is left alone.

`fuel` bounds the number of recursive steps; `none` is returned when it runs
out, when an invocation is not closed, or when the number of arguments is
wrong. -/
def expand : Nat → List MacroDef → List String → List Token → Option (List Token)
  | 0, _, _, _ => none
  | fuel + 1, env, hidden, toks =>
    match toks with
    | [] => some []
    | Token.ident n :: rest =>
      match lookupMacro env hidden n with
      | none => (expand fuel env hidden rest).map (fun r => Token.ident n :: r)
      | some m =>
        if m.functionLike then
          match rest with
          | Token.punct p :: rest₁ =>
            if p = "(" then
              match collectArgs rest₁ 0 [] [] with
              | none => none
              | some (args, rest₂) =>
                match mapOption (expand fuel env hidden) args with
                | none => none
                | some args' =>
                  match bindArgs m.params args' with
                  | none => none
                  | some binding =>
                    match expand fuel env (m.name :: hidden) (substitute binding m.body),
                          expand fuel env hidden rest₂ with
                    | some out, some tail => some (out ++ tail)
                    | _, _ => none
            else (expand fuel env hidden rest).map (fun r => Token.ident n :: r)
          | _ => (expand fuel env hidden rest).map (fun r => Token.ident n :: r)
        else
          match expand fuel env (m.name :: hidden) m.body, expand fuel env hidden rest with
          | some out, some tail => some (out ++ tail)
          | _, _ => none
    | t :: rest => (expand fuel env hidden rest).map (fun r => t :: r)

/-- Steps allowed to one macro replacement; the longest replacement in the
header needs fewer than a hundred. -/
def expansionFuel : Nat := 256

/-- The tokens of the invocation `name(TypeName)`. -/
def invocation (name TypeName : String) : List Token :=
  [Token.ident name, Token.punct "(", Token.ident TypeName, Token.punct ")"]

/-- The full expansion of `name(TypeName)` under the definitions `env`. -/
def expandInvocation (env : List MacroDef) (name TypeName : String) : Option (List Token) :=
  expand expansionFuel env [] (invocation name TypeName)

/-! ## The three macros of the header -/

/-- The definitions made by `macros.h`. -/
def headerMacros : List MacroDef :=
  definitions macros_h

/-- Expansion of `DISALLOW_COPY_MOVE_ASSIGN(TypeName)` (lines 5-9). -/
def DISALLOW_COPY_MOVE_ASSIGN (TypeName : String) : Option (List Token) :=
  expandInvocation headerMacros "DISALLOW_COPY_MOVE_ASSIGN" TypeName

/-- Expansion of `DEFAULT_COPY_MOVE_ASSIGN(TypeName)` (lines 11-15). -/
def DEFAULT_COPY_MOVE_ASSIGN (TypeName : String) : Option (List Token) :=
  expandInvocation headerMacros "DEFAULT_COPY_MOVE_ASSIGN" TypeName

/-- Expansion of `DEFAULT_COPY_MOVE_ASSIGN_DESTRUCT(TypeName)` (lines 17-19). -/
def DEFAULT_COPY_MOVE_ASSIGN_DESTRUCT (TypeName : String) : Option (List Token) :=
  expandInvocation headerMacros "DEFAULT_COPY_MOVE_ASSIGN_DESTRUCT" TypeName

/-! ## Type names -/

/-- The keywords of C++ (they are identifiers to the preprocessor, but none
of them can name a type). -/
def cxxKeywords : List String :=
  [ "alignas", "alignof", "asm", "auto", "bool", "break", "case", "catch", "char",
    "char8_t", "char16_t", "char32_t", "class", "concept", "const", "consteval",
    "constexpr", "constinit", "const_cast", "continue", "co_await", "co_return",
    "co_yield", "decltype", "default", "delete", "do", "double", "dynamic_cast",
    "else", "enum", "explicit", "export", "extern", "false", "float", "for",
    "friend", "goto", "if", "inline", "int", "long", "mutable", "namespace", "new",
    "noexcept", "nullptr", "operator", "private", "protected", "public", "register",
    "reinterpret_cast", "requires", "return", "short", "signed", "sizeof", "static",
    "static_assert", "static_cast", "struct", "switch", "template", "this",
    "thread_local", "throw", "true", "try", "typedef", "typeid", "typename", "union",
    "unsigned", "using", "virtual", "void", "volatile", "wchar_t", "while",
    "and", "and_eq", "bitand", "bitor", "compl", "not", "not_eq", "or", "or_eq",
    "xor", "xor_eq" ]

/-- An identifier: a letter or underscore followed by letters, digits and
underscores. -/
def isIdentifier (s : String) : Bool :=
  match s.toList with
  | [] => false
  | c :: cs => (c.isAlpha || c == '_') && cs.all isWordChar

/-- What may be passed to the macros as the name of a class: an identifier
that is neither a keyword nor the name of a macro in force. -/
def isTypeName (env : List MacroDef) (T : String) : Bool :=
  isIdentifier T && !(cxxKeywords.contains T) && !((env.map (fun m => m.name)).contains T)

/-! ## Member declarations

The expansions are sequences of member declarations.  The fragment of the
C++ grammar they are written in is parsed here: an optional return type, the
declarator `T`, `~T` or `operator=`, a parameter list that is empty or one
(possibly `const`) reference to `T`, an optional `noexcept`, and an optional
`= delete` or `= default`. -/

/-- The special member functions of a class. -/
inductive SpecialMember where
  | defaultCtor | copyCtor | moveCtor | copyAssign | moveAssign | dtor
  deriving DecidableEq, Repr

/-- The parameter list of a special member of `T`: empty, `const T&`, `T&`,
`T&&` or `const T&&` (a parameter name does not belong to the signature). -/
inductive ParamForm where
  | empty | constLRef | lref | rref | constRRef
  deriving DecidableEq, Repr

/-- How a declared function gets its definition: `= delete`, `= default`, or
neither (it is user-provided). -/
inductive BodyKind where
  | deleted | defaulted | declared
  deriving DecidableEq, Repr

/-- The three declarators of special members. -/
inductive Declarator where
  | ctor | dtor | assign
  deriving DecidableEq, Repr

/-- A declaration of a special member function. -/
structure MemberDecl where
  member : SpecialMember
  param : ParamForm
  returnType : List Token
  isNoexcept : Bool
  body : BodyKind
  deriving DecidableEq, Repr

/-- Cuts a token sequence into declarations, each ended by `;`.  `none` when
tokens remain after the last `;`. -/
def splitDeclarations : List Token → List Token → Option (List (List Token))
  | [], acc => if acc = [] then some [] else none
  | t :: ts, acc =>
    if t = Token.punct ";" then (splitDeclarations ts []).map (fun ds => acc.reverse :: ds)
    else splitDeclarations ts (t :: acc)

/-- Cuts a token sequence at the first occurrence of the punctuator `p`;
`acc` is what was read so far, in reverse. -/
def splitAtPunct (p : String) : List Token → List Token → Option (List Token × List Token)
  | [], _ => none
  | t :: ts, acc =>
    if t = Token.punct p then some (acc.reverse, ts) else splitAtPunct p ts (t :: acc)

/-- Reads what stands before the parameter list: `T` (constructor), `~T`
(destructor), or a return type followed by `operator=`. -/
def parseHead (T : String) (head : List Token) : Option (List Token × Declarator) :=
  if head = [Token.ident T] then some ([], Declarator.ctor)
  else if head = [Token.punct "~", Token.ident T] then some ([], Declarator.dtor)
  else
    match head.reverse with
    | e :: o :: ret =>
      if e = Token.punct "=" ∧ o = Token.ident "operator" ∧ ret ≠ [] then
        some (ret.reverse, Declarator.assign)
      else none
    | _ => none

/-- Whether nothing or just a parameter name follows the parameter's type. -/
def isOptionalName : List Token → Bool
  | [] => true
  | [Token.ident _] => true
  | _ => false

/-- Reads `T&`, `T&&` with an optional parameter name. -/
def parseRef (T : String) (isConst : Bool) : List Token → Option ParamForm
  | Token.ident t :: Token.punct p :: rest =>
    if t = T ∧ isOptionalName rest then
      if p = "&" then some (if isConst then ParamForm.constLRef else ParamForm.lref)
      else if p = "&&" then some (if isConst then ParamForm.constRRef else ParamForm.rref)
      else none
    else none
  | _ => none

/-- Reads the parameter list of a special member of `T`. -/
def parseParam (T : String) : List Token → Option ParamForm
  | [] => some ParamForm.empty
  | t :: ts => if t = Token.ident "const" then parseRef T true ts else parseRef T false (t :: ts)

/-- Reads `= delete` or `= default`; nothing means the function is only
declared here. -/
def parseBody (ts : List Token) : Option BodyKind :=
  if ts = [] then some BodyKind.declared
  else if ts = [Token.punct "=", Token.ident "delete"] then some BodyKind.deleted
  else if ts = [Token.punct "=", Token.ident "default"] then some BodyKind.defaulted
  else none

/-- Reads what follows the parameter list: an optional `noexcept`, then the
body. -/
def parseTail : List Token → Option (Bool × BodyKind)
  | [] => some (false, BodyKind.declared)
  | t :: ts =>
    if t = Token.ident "noexcept" then (parseBody ts).map (fun b => (true, b))
    else (parseBody (t :: ts)).map (fun b => (false, b))

/-- Which special member a declarator with a parameter list declares: a
constructor taking `T&` or `const T&` is a copy constructor, one taking `T&&`
or `const T&&` a move constructor, and likewise for `operator=`. -/
def classify : Declarator → ParamForm → Option SpecialMember
  | Declarator.ctor, ParamForm.empty => some SpecialMember.defaultCtor
  | Declarator.ctor, ParamForm.constLRef => some SpecialMember.copyCtor
  | Declarator.ctor, ParamForm.lref => some SpecialMember.copyCtor
  | Declarator.ctor, ParamForm.rref => some SpecialMember.moveCtor
  | Declarator.ctor, ParamForm.constRRef => some SpecialMember.moveCtor
  | Declarator.assign, ParamForm.constLRef => some SpecialMember.copyAssign
  | Declarator.assign, ParamForm.lref => some SpecialMember.copyAssign
  | Declarator.assign, ParamForm.rref => some SpecialMember.moveAssign
  | Declarator.assign, ParamForm.constRRef => some SpecialMember.moveAssign
  | Declarator.dtor, ParamForm.empty => some SpecialMember.dtor
  | _, _ => none

/-- Reads one declaration (without its `;`) as a special member of `T`. -/
def parseDecl (T : String) (d : List Token) : Option MemberDecl :=
  match splitAtPunct "(" d [] with
  | none => none
  | some (head, r₁) =>
    match splitAtPunct ")" r₁ [] with
    | none => none
    | some (ps, tail) =>
      match parseHead T head, parseParam T ps, parseTail tail with
      | some (ret, dcl), some pf, some (ne, b) =>
        (classify dcl pf).map (fun k => ⟨k, pf, ret, ne, b⟩)
      | _, _, _ => none

/-- Reads a token sequence as declarations of special members of `T`; `none`
when some part of it is not such a declaration. -/
def memberDeclarations (T : String) (toks : List Token) : Option (List MemberDecl) :=
  match splitDeclarations toks [] with
  | none => none
  | some ds => mapOption (parseDecl T) ds

/-- The special members declared by an expansion. -/
def declaredBy (T : String) (expansion : Option (List Token)) : Option (List MemberDecl) :=
  expansion.bind (memberDeclarations T)

/-- The name of each macro the header defines. -/
def macroNames : List String :=
  headerMacros.map (fun m => m.name)

/-- Whether the replacement list of `m` names the macro `other`. -/
def refersTo (m : MacroDef) (other : String) : Bool :=
  m.body.contains (Token.ident other)

/-- The definitions in force when, of the header's macros, only `name` and
those listed in `defined` are defined. -/
def restrictTo (name : String) (defined : List String) : List MacroDef :=
  headerMacros.filter (fun m => m.name == name || defined.contains m.name)

/-! ## Classes and their special member functions

What the declarations mean for a class is fixed by the C++ rules on special
member functions.  The part of those rules the header's contract rests on is
modelled here: which special members a class has ([class.default.ctor],
[class.copy.ctor], [class.copy.assign], [class.dtor]), when a defaulted one
is defined as deleted, which one an operation selects, and its exception
specification ([except.spec], [dcl.fct.def.default]). -/

/-- What the type of a base class or non-static data member supports: for
each special member, whether the corresponding operation on the subobject is
usable (overload resolution finds an accessible function that is not
deleted), and whether that function cannot throw. -/
structure Subobject where
  usable : SpecialMember → Bool
  nothrow : SpecialMember → Bool

/-- A class: its name, its subobjects, whether it declares a constructor that
is not a default, copy or move constructor, and the special members its body
declares, in order. -/
structure ClassDef where
  name : String
  subobjects : List Subobject
  otherCtor : Bool
  members : List MemberDecl

/-- Two declarations of the same special member with the same parameter
list. -/
def sameSignature (a b : MemberDecl) : Bool :=
  a.member == b.member && a.param == b.param

/-- Whether a member-specification declares some member function twice,
which is ill-formed ([class.mem]). -/
def redeclared : List MemberDecl → Bool
  | [] => false
  | d :: ds => ds.any (sameSignature d) || redeclared ds

/-- The user-declared special member of a kind, if the body has one. -/
def userDeclared (c : ClassDef) (k : SpecialMember) : Option MemberDecl :=
  c.members.find? (fun d => d.member == k)

/-- Whether the class declares the special member itself. -/
def declares (c : ClassDef) (k : SpecialMember) : Bool :=
  (userDeclared c k).isSome

/-- Whether the special member is declared implicitly.  A default constructor
only if the class declares no constructor at all; a copy operation or the
destructor whenever the class does not declare it; a move operation only if
the class declares no copy operation, no move operation and no destructor. -/
def implicitlyDeclared (c : ClassDef) : SpecialMember → Bool
  | SpecialMember.defaultCtor =>
    !(c.otherCtor || declares c SpecialMember.defaultCtor
      || declares c SpecialMember.copyCtor || declares c SpecialMember.moveCtor)
  | SpecialMember.copyCtor => !declares c SpecialMember.copyCtor
  | SpecialMember.copyAssign => !declares c SpecialMember.copyAssign
  | SpecialMember.dtor => !declares c SpecialMember.dtor
  | _ =>
    !(declares c SpecialMember.copyCtor || declares c SpecialMember.moveCtor
      || declares c SpecialMember.copyAssign || declares c SpecialMember.moveAssign
      || declares c SpecialMember.dtor)

/-- What a special member of a class is: not there, deleted, the member-wise
default, or a function the user provides. -/
inductive Provision where
  | absent | deleted | memberwise | userProvided
  deriving DecidableEq, Repr

/-- A defaulted special member performs the operation subobject by subobject;
it is defined as deleted when some subobject does not support it. -/
def defaultedProvision (c : ClassDef) (k : SpecialMember) : Provision :=
  if c.subobjects.all (fun s => s.usable k) then Provision.memberwise else Provision.deleted

/-- Whether the class declares a move constructor or move assignment
operator. -/
def declaresMove (c : ClassDef) : Bool :=
  declares c SpecialMember.moveCtor || declares c SpecialMember.moveAssign

/-- What each special member of the class is.  An implicitly declared copy
operation is defined as deleted when the class declares a move operation. -/
def provision (c : ClassDef) (k : SpecialMember) : Provision :=
  match userDeclared c k with
  | some d =>
    match d.body with
    | BodyKind.deleted => Provision.deleted
    | BodyKind.defaulted => defaultedProvision c k
    | BodyKind.declared => Provision.userProvided
  | none =>
    if implicitlyDeclared c k then
      if (k == SpecialMember.copyCtor || k == SpecialMember.copyAssign) && declaresMove c then
        Provision.deleted
      else defaultedProvision c k
    else Provision.absent

/-- The exception specification a member-wise special member gets by itself:
non-throwing exactly when the operation is non-throwing on every subobject. -/
def implicitNothrow (c : ClassDef) (k : SpecialMember) : Bool :=
  c.subobjects.all (fun s => s.nothrow k)

/-- Whether the special member is non-throwing (`none` when the class has no
such member).  A declaration with `noexcept` is non-throwing whatever the
subobjects are; a defaulted declaration without it, a destructor without it
and an implicit declaration have the implicit specification; any other
declaration without it may throw. -/
def isNothrow (c : ClassDef) (k : SpecialMember) : Option Bool :=
  match userDeclared c k with
  | some d =>
    some (d.isNoexcept
      || ((d.body == BodyKind.defaulted || k == SpecialMember.dtor) && implicitNothrow c k))
  | none => if implicitlyDeclared c k then some (implicitNothrow c k) else none

/-- Whether a list of declarations declares no copy or move member. -/
def declaresNoCopyMove (ds : List MemberDecl) : Bool :=
  ds.all (fun d => d.member == SpecialMember.defaultCtor || d.member == SpecialMember.dtor)

/-- The definition made by lines 5-9 of the header, written out. -/
def disallowDef : MacroDef :=
  ⟨"DISALLOW_COPY_MOVE_ASSIGN", true, ["TypeName"],
    [ Token.ident "TypeName", Token.punct "(", Token.ident "const", Token.ident "TypeName",
      Token.punct "&", Token.punct ")", Token.punct "=", Token.ident "delete", Token.punct ";",
      Token.ident "void", Token.ident "operator", Token.punct "=", Token.punct "(",
      Token.ident "const", Token.ident "TypeName", Token.punct "&", Token.punct ")",
      Token.punct "=", Token.ident "delete", Token.punct ";",
      Token.ident "TypeName", Token.punct "(", Token.ident "TypeName", Token.punct "&&",
      Token.punct ")", Token.punct "=", Token.ident "delete", Token.punct ";",
      Token.ident "void", Token.ident "operator", Token.punct "=", Token.punct "(",
      Token.ident "TypeName", Token.punct "&&", Token.punct ")", Token.punct "=",
      Token.ident "delete", Token.punct ";" ]⟩

/-- The definition made by lines 11-16 of the header, written out. -/
def defaultDef : MacroDef :=
  ⟨"DEFAULT_COPY_MOVE_ASSIGN", true, ["TypeName"],
    [ Token.ident "TypeName", Token.punct "(", Token.ident "const", Token.ident "TypeName",
      Token.punct "&", Token.ident "other", Token.punct ")", Token.punct "=",
      Token.ident "default", Token.punct ";",
      Token.ident "TypeName", Token.punct "(", Token.ident "TypeName", Token.punct "&&",
      Token.ident "other", Token.punct ")", Token.ident "noexcept", Token.punct "=",
      Token.ident "default", Token.punct ";",
      Token.ident "TypeName", Token.punct "&", Token.ident "operator", Token.punct "=",
      Token.punct "(", Token.ident "const", Token.ident "TypeName", Token.punct "&",
      Token.ident "other", Token.punct ")", Token.punct "=", Token.ident "default",
      Token.punct ";",
      Token.ident "TypeName", Token.punct "&", Token.ident "operator", Token.punct "=",
      Token.punct "(", Token.ident "TypeName", Token.punct "&&", Token.ident "other",
      Token.punct ")", Token.ident "noexcept", Token.punct "=", Token.ident "default",
      Token.punct ";" ]⟩

/-- The definition made by lines 17-19 of the header, written out. -/
def destructDef : MacroDef :=
  ⟨"DEFAULT_COPY_MOVE_ASSIGN_DESTRUCT", true, ["TypeName"],
    [ Token.punct "~", Token.ident "TypeName", Token.punct "(", Token.punct ")",
      Token.punct "=", Token.ident "default", Token.punct ";",
      Token.ident "DEFAULT_COPY_MOVE_ASSIGN", Token.punct "(", Token.ident "TypeName",
      Token.punct ")" ]⟩

/-- The tokens of `~T() = default;`. -/
def defaultedDtorTokens (T : String) : List Token :=
  [ Token.punct "~", Token.ident T, Token.punct "(", Token.punct ")", Token.punct "=",
    Token.ident "default", Token.punct ";" ]

/-- A replacement list with the parameter `TypeName` replaced by the
identifier `T`. -/
def instantiate (T : String) (body : List Token) : List Token :=
  substitute [("TypeName", [Token.ident T])] body

/-- The class named `T` whose body consists of the declarations `before`,
the expansion of a macro invocation, and the declarations `after`; `none`
when the expansion failed or is not a sequence of special member
declarations. -/
def classWith (T : String) (subobjects : List Subobject) (otherCtor : Bool)
    (before : List MemberDecl) (expansion : Option (List Token)) (after : List MemberDecl) :
    Option ClassDef :=
  (declaredBy T expansion).map (fun ds => ⟨T, subobjects, otherCtor, before ++ ds ++ after⟩)

/-- The copy and move members of a class. -/
def copyMoveMembers : List SpecialMember :=
  [ SpecialMember.copyCtor, SpecialMember.moveCtor, SpecialMember.copyAssign,
    SpecialMember.moveAssign ]

/-- What a declaration says apart from the spelling of its return type:
the member, its parameter list, whether it is `noexcept`, and its body. -/
def MemberDecl.shape (d : MemberDecl) : SpecialMember × ParamForm × Bool × BodyKind :=
  (d.member, d.param, d.isNoexcept, d.body)

/-- A subobject that supports every operation and whose move operations may
throw (for instance a data member whose move constructor is not `noexcept`). -/
def mayThrowOnMove : Subobject where
  usable _ := true
  nothrow k := k != SpecialMember.moveCtor && k != SpecialMember.moveAssign

/-- The declarations `T(const T &) = delete; void operator=(const T &) =
delete; T(T &&) = delete; void operator=(T &&) = delete;` (lines 6-9). -/
def disallowDecls : List MemberDecl :=
  [ ⟨SpecialMember.copyCtor, ParamForm.constLRef, [], false, BodyKind.deleted⟩,
    ⟨SpecialMember.copyAssign, ParamForm.constLRef, [Token.ident "void"], false,
      BodyKind.deleted⟩,
    ⟨SpecialMember.moveCtor, ParamForm.rref, [], false, BodyKind.deleted⟩,
    ⟨SpecialMember.moveAssign, ParamForm.rref, [Token.ident "void"], false,
      BodyKind.deleted⟩ ]

/-- The declarations `T(const T& other) = default; T(T&& other) noexcept =
default; T& operator=(const T& other) = default; T& operator=(T&& other)
noexcept = default;` (lines 12-15). -/
def defaultDecls (T : String) : List MemberDecl :=
  [ ⟨SpecialMember.copyCtor, ParamForm.constLRef, [], false, BodyKind.defaulted⟩,
    ⟨SpecialMember.moveCtor, ParamForm.rref, [], true, BodyKind.defaulted⟩,
    ⟨SpecialMember.copyAssign, ParamForm.constLRef, [Token.ident T, Token.punct "&"],
      false, BodyKind.defaulted⟩,
    ⟨SpecialMember.moveAssign, ParamForm.rref, [Token.ident T, Token.punct "&"],
      true, BodyKind.defaulted⟩ ]

/-- The declaration `~T() = default;` (line 18). -/
def dtorDecl : MemberDecl :=
  ⟨SpecialMember.dtor, ParamForm.empty, [], false, BodyKind.defaulted⟩

/-- Whether no identifier of the sequence names a definition in force. -/
def macroFree (env : List MacroDef) (hidden : List String) (toks : List Token) : Bool :=
  toks.all (fun t =>
    match t with
    | Token.ident n => (lookupMacro env hidden n).isNone
    | _ => true)

set_option maxRecDepth 100000

/-! ## Macro replacement: general facts -/

theorem expand_nil (fuel : Nat) (env : List MacroDef) (hidden : List String) :
    expand (fuel + 1) env hidden [] = some [] := by
  simp [expand]

theorem expand_macroFree_append (env : List MacroDef) (hidden : List String)
    (pre rest : List Token) (h : macroFree env hidden pre = true) (fuel : Nat) :
    expand (fuel + pre.length) env hidden (pre ++ rest)
      = (expand fuel env hidden rest).map (fun r => pre ++ r) := by
  induction pre with
  | nil => simp
  | cons t ts ih =>
    have hts : macroFree env hidden ts = true := by
      simp only [macroFree, List.all_cons, Bool.and_eq_true] at h ⊢
      exact h.2
    have hlen : fuel + (t :: ts).length = (fuel + ts.length) + 1 := by
      simp only [List.length_cons]; omega
    rw [hlen, List.cons_append]
    cases t with
    | ident n =>
      have hn : lookupMacro env hidden n = none := by
        simp only [macroFree, List.all_cons, Bool.and_eq_true, Option.isNone_iff_eq_none] at h
        exact h.1
      simp only [expand, hn, ih hts, Option.map_map]
      rfl
    | number s => simp only [expand, ih hts, Option.map_map]; rfl
    | punct s => simp only [expand, ih hts, Option.map_map]; rfl
    | space => simp only [expand, ih hts, Option.map_map]; rfl

theorem expand_macroFree (env : List MacroDef) (hidden : List String)
    (toks : List Token) (h : macroFree env hidden toks = true) (fuel : Nat)
    (hf : toks.length < fuel) :
    expand fuel env hidden toks = some toks := by
  obtain ⟨k, rfl⟩ : ∃ k, fuel = (k + 1) + toks.length := ⟨fuel - toks.length - 1, by omega⟩
  have := expand_macroFree_append env hidden toks [] h (k + 1)
  rw [List.append_nil] at this
  rw [this, expand_nil]
  simp

theorem lookupMacro_none_of_not_mem (env : List MacroDef) (hidden : List String) (T : String)
    (h : T ∉ env.map (fun m => m.name)) : lookupMacro env hidden T = none := by
  unfold lookupMacro
  split
  · rfl
  · rw [List.find?_eq_none]
    intro m hm hname
    apply h
    rw [List.mem_map]
    exact ⟨m, hm, by simpa using hname⟩

theorem macroFree_substitute (env : List MacroDef) (hidden : List String) (p : String)
    (arg body : List Token) (hb : macroFree env hidden body = true)
    (ha : macroFree env hidden arg = true) :
    macroFree env hidden (substitute [(p, arg)] body) = true := by
  induction body with
  | nil => simp [substitute, macroFree]
  | cons t ts ih =>
    have hts : macroFree env hidden ts = true := by
      simp only [macroFree, List.all_cons, Bool.and_eq_true] at hb ⊢
      exact hb.2
    have ht : macroFree env hidden [t] = true := by
      simp only [macroFree, List.all_cons, Bool.and_eq_true] at hb ⊢
      exact ⟨hb.1, by simp⟩
    have happ : ∀ xs ys, macroFree env hidden xs = true → macroFree env hidden ys = true →
        macroFree env hidden (xs ++ ys) = true := by
      intro xs ys hx hy
      simp only [macroFree, List.all_append, Bool.and_eq_true] at hx hy ⊢
      exact ⟨hx, hy⟩
    cases t with
    | ident s =>
      by_cases hs : s = p
      · subst hs
        simp only [substitute, List.lookup, beq_self_eq_true]
        exact happ _ _ ha (ih hts)
      · have : (s == p) = false := by simpa using hs
        simp only [substitute, List.lookup, this]
        exact happ [Token.ident s] _ ht (ih hts)
    | number s => simp only [substitute]; exact happ [Token.number s] _ ht (ih hts)
    | punct s => simp only [substitute]; exact happ [Token.punct s] _ ht (ih hts)
    | space => simp only [substitute]; exact happ [Token.space] _ ht (ih hts)

theorem substitute_length (p : String) (a : Token) (body : List Token) :
    (substitute [(p, [a])] body).length = body.length := by
  induction body with
  | nil => simp [substitute]
  | cons t ts ih =>
    cases t with
    | ident s =>
      by_cases hs : s = p
      · subst hs
        simp [substitute, List.lookup, ih]
      · have : (s == p) = false := by simpa using hs
        simp [substitute, List.lookup, this, ih]
    | number s => simp [substitute, ih]
    | punct s => simp [substitute, ih]
    | space => simp [substitute, ih]

theorem expand_invocation (env : List MacroDef) (hidden : List String) (m : MacroDef)
    (p T : String) (out : List Token) (fuel : Nat)
    (hl : lookupMacro env hidden m.name = some m) (hf : m.functionLike = true)
    (hp : m.params = [p]) (hT : lookupMacro env hidden T = none)
    (hout : expand (fuel + 2) env (m.name :: hidden)
      (substitute [(p, [Token.ident T])] m.body) = some out) :
    expand (fuel + 3) env hidden (invocation m.name T) = some out := by
  have harg : expand (fuel + 2) env hidden [Token.ident T] = some [Token.ident T] :=
    expand_macroFree env hidden [Token.ident T] (by simp [macroFree, hT]) (fuel + 2)
      (by simp)
  have hnil : expand (fuel + 2) env hidden [] = some [] := expand_nil (fuel + 1) env hidden
  have hmap : mapOption (expand (fuel + 2) env hidden) [[Token.ident T]]
      = some [[Token.ident T]] := by
    simp [mapOption, harg]
  have hcollect : collectArgs [Token.ident T, Token.punct ")"] 0 [] []
      = some ([[Token.ident T]], []) := by
    simp [collectArgs]
  have hbind : bindArgs [p] [[Token.ident T]] = some [(p, [Token.ident T])] := by
    simp [bindArgs]
  show expand ((fuel + 2) + 1) env hidden
    (Token.ident m.name :: Token.punct "(" :: [Token.ident T, Token.punct ")"]) = some out
  rw [expand.eq_3]
  simp only [hl, hf, hcollect, hmap, hp, hbind, hout, hnil, if_true, List.append_nil]

theorem expand_macroFree_body (env : List MacroDef) (m : MacroDef) (p T : String) (fuel : Nat)
    (hl : lookupMacro env [] m.name = some m) (hf : m.functionLike = true)
    (hp : m.params = [p]) (hT : T ∉ env.map (fun d => d.name))
    (hfree : macroFree env [m.name] m.body = true) (hfuel : m.body.length + 2 < fuel) :
    expand fuel env [] (invocation m.name T) = some (substitute [(p, [Token.ident T])] m.body) := by
  obtain ⟨k, rfl⟩ : ∃ k, fuel = k + 3 := ⟨fuel - 3, by omega⟩
  apply expand_invocation env [] m p T _ k hl hf hp (lookupMacro_none_of_not_mem env [] T hT)
  apply expand_macroFree
  · apply macroFree_substitute _ _ _ _ _ hfree
    simp [macroFree, lookupMacro_none_of_not_mem env [m.name] T hT]
  · rw [substitute_length]; omega

/-! ## The header, evaluated -/

theorem headerMacros_eq : headerMacros = [disallowDef, defaultDef, destructDef] := by
  decide

theorem typeName_not_mem {T : String} (hT : isTypeName headerMacros T = true) :
    T ∉ headerMacros.map (fun m => m.name) := by
  simp only [isTypeName, Bool.and_eq_true, Bool.not_eq_true'] at hT
  have h := hT.2
  intro hmem
  have hc : (List.map (fun m => m.name) headerMacros).contains T = true :=
    List.elem_eq_true_of_mem hmem
  rw [hc] at h
  exact Bool.noConfusion h

theorem typeName_not_keyword {T k : String} (hT : isTypeName headerMacros T = true)
    (hk : k ∈ cxxKeywords) : T ≠ k := by
  simp only [isTypeName, Bool.and_eq_true, Bool.not_eq_true'] at hT
  have h := hT.1.2
  intro hTk
  subst hTk
  have hc : cxxKeywords.contains T = true := List.elem_eq_true_of_mem hk
  rw [hc] at h
  exact Bool.noConfusion h

theorem typeName_ne_const {T : String} (hT : isTypeName headerMacros T = true) :
    T ≠ "const" :=
  typeName_not_keyword hT (by decide)

theorem instantiate_disallow (T : String) :
    instantiate T disallowDef.body =
      [ Token.ident T, Token.punct "(", Token.ident "const", Token.ident T,
        Token.punct "&", Token.punct ")", Token.punct "=", Token.ident "delete", Token.punct ";",
        Token.ident "void", Token.ident "operator", Token.punct "=", Token.punct "(",
        Token.ident "const", Token.ident T, Token.punct "&", Token.punct ")",
        Token.punct "=", Token.ident "delete", Token.punct ";",
        Token.ident T, Token.punct "(", Token.ident T, Token.punct "&&",
        Token.punct ")", Token.punct "=", Token.ident "delete", Token.punct ";",
        Token.ident "void", Token.ident "operator", Token.punct "=", Token.punct "(",
        Token.ident T, Token.punct "&&", Token.punct ")", Token.punct "=",
        Token.ident "delete", Token.punct ";" ] := by
  rfl


theorem declarations_disallow (T : String) (hc : T ≠ "const") :
    memberDeclarations T (instantiate T disallowDef.body) =
      some
        [ ⟨SpecialMember.copyCtor, ParamForm.constLRef, [], false, BodyKind.deleted⟩,
          ⟨SpecialMember.copyAssign, ParamForm.constLRef, [Token.ident "void"], false,
            BodyKind.deleted⟩,
          ⟨SpecialMember.moveCtor, ParamForm.rref, [], false, BodyKind.deleted⟩,
          ⟨SpecialMember.moveAssign, ParamForm.rref, [Token.ident "void"], false,
            BodyKind.deleted⟩ ] := by
  rw [instantiate_disallow]
  simp [memberDeclarations, splitDeclarations, mapOption, parseDecl, splitAtPunct, parseHead,
    parseParam, parseRef, isOptionalName, parseTail, parseBody, classify, hc]


theorem instantiate_default (T : String) :
    instantiate T defaultDef.body =
      [ Token.ident T, Token.punct "(", Token.ident "const", Token.ident T,
        Token.punct "&", Token.ident "other", Token.punct ")", Token.punct "=",
        Token.ident "default", Token.punct ";",
        Token.ident T, Token.punct "(", Token.ident T, Token.punct "&&",
        Token.ident "other", Token.punct ")", Token.ident "noexcept", Token.punct "=",
        Token.ident "default", Token.punct ";",
        Token.ident T, Token.punct "&", Token.ident "operator", Token.punct "=",
        Token.punct "(", Token.ident "const", Token.ident T, Token.punct "&",
        Token.ident "other", Token.punct ")", Token.punct "=", Token.ident "default",
        Token.punct ";",
        Token.ident T, Token.punct "&", Token.ident "operator", Token.punct "=",
        Token.punct "(", Token.ident T, Token.punct "&&", Token.ident "other",
        Token.punct ")", Token.ident "noexcept", Token.punct "=", Token.ident "default",
        Token.punct ";" ] := by
  rfl

theorem instantiate_destruct (T : String) :
    instantiate T destructDef.body
      = defaultedDtorTokens T ++ invocation "DEFAULT_COPY_MOVE_ASSIGN" T := by
  rfl

theorem declarations_default (T : String) (hc : T ≠ "const") :
    memberDeclarations T (instantiate T defaultDef.body) =
      some
        [ ⟨SpecialMember.copyCtor, ParamForm.constLRef, [], false, BodyKind.defaulted⟩,
          ⟨SpecialMember.moveCtor, ParamForm.rref, [], true, BodyKind.defaulted⟩,
          ⟨SpecialMember.copyAssign, ParamForm.constLRef, [Token.ident T, Token.punct "&"],
            false, BodyKind.defaulted⟩,
          ⟨SpecialMember.moveAssign, ParamForm.rref, [Token.ident T, Token.punct "&"],
            true, BodyKind.defaulted⟩ ] := by
  rw [instantiate_default]
  simp [memberDeclarations, splitDeclarations, mapOption, parseDecl, splitAtPunct, parseHead,
    parseParam, parseRef, isOptionalName, parseTail, parseBody, classify, hc]

theorem declarations_dtor (T : String) :
    memberDeclarations T (defaultedDtorTokens T) =
      some [⟨SpecialMember.dtor, ParamForm.empty, [], false, BodyKind.defaulted⟩] := by
  simp [defaultedDtorTokens, memberDeclarations, splitDeclarations, mapOption, parseDecl,
    splitAtPunct, parseHead, parseParam, parseTail, parseBody, classify]

theorem splitDeclarations_append (a b : List Token) (db : List (List Token))
    (hb : splitDeclarations b [] = some db) :
    ∀ (acc : List Token) (da : List (List Token)), splitDeclarations a acc = some da →
      splitDeclarations (a ++ b) acc = some (da ++ db) := by
  induction a with
  | nil =>
    intro acc da h
    simp only [splitDeclarations] at h
    split at h
    · rename_i hacc
      subst hacc
      simp only [Option.some.injEq] at h
      subst h
      simpa using hb
    · exact absurd h (by simp)
  | cons t ts ih =>
    intro acc da h
    simp only [List.cons_append, splitDeclarations, List.append_eq] at h ⊢
    split at h
    · rename_i ht
      rw [if_pos ht]
      cases hts : splitDeclarations ts [] with
      | none => rw [hts] at h; exact absurd h (by simp)
      | some ds =>
        rw [hts] at h
        simp only [Option.map_some', Option.some.injEq] at h
        subst h
        rw [ih [] ds hts]
        simp
    · rename_i ht
      rw [if_neg ht]
      exact ih _ _ h

theorem mapOption_append {α β : Type} (f : α → Option β) (xs xs' : List α) (ys ys' : List β)
    (h : mapOption f xs = some ys) (h' : mapOption f xs' = some ys') :
    mapOption f (xs ++ xs') = some (ys ++ ys') := by
  induction xs generalizing ys with
  | nil =>
    simp only [mapOption, Option.some.injEq] at h
    subst h
    simpa using h'
  | cons x xs ih =>
    simp only [List.cons_append, mapOption, List.append_eq] at h ⊢
    cases hx : f x with
    | none => rw [hx] at h; exact absurd h (by simp)
    | some y =>
      cases hxs : mapOption f xs with
      | none => rw [hx, hxs] at h; exact absurd h (by simp)
      | some zs =>
        rw [hx, hxs] at h
        simp only [Option.some.injEq] at h
        subst h
        rw [ih zs hxs]
        simp

theorem memberDeclarations_append (T : String) (a b : List Token) (da db : List MemberDecl)
    (ha : memberDeclarations T a = some da) (hb : memberDeclarations T b = some db) :
    memberDeclarations T (a ++ b) = some (da ++ db) := by
  unfold memberDeclarations at ha hb ⊢
  cases hsa : splitDeclarations a [] with
  | none => rw [hsa] at ha; exact absurd ha (by simp)
  | some sa =>
    cases hsb : splitDeclarations b [] with
    | none => rw [hsb] at hb; exact absurd hb (by simp)
    | some sb =>
      rw [hsa] at ha
      rw [hsb] at hb
      rw [splitDeclarations_append a b sb hsb [] sa hsa]
      exact mapOption_append _ _ _ _ _ ha hb

/-! ## The expansions of the three macros -/

theorem expandInvocation_macroFree (env : List MacroDef) (m : MacroDef) (T : String)
    (hl : lookupMacro env [] m.name = some m) (hf : m.functionLike = true)
    (hp : m.params = ["TypeName"]) (hT : T ∉ env.map (fun d => d.name))
    (hfree : macroFree env [m.name] m.body = true)
    (hlen : m.body.length + 2 < expansionFuel) :
    expandInvocation env m.name T = some (instantiate T m.body) :=
  expand_macroFree_body env m "TypeName" T expansionFuel hl hf hp hT hfree hlen

theorem expandInvocation_destruct (env : List MacroDef) (T : String)
    (hl : lookupMacro env [] destructDef.name = some destructDef)
    (hl₂ : lookupMacro env [destructDef.name] defaultDef.name = some defaultDef)
    (hd : lookupMacro env [destructDef.name] "default" = none)
    (hfree : macroFree env [defaultDef.name, destructDef.name] defaultDef.body = true)
    (hT : T ∉ env.map (fun d => d.name)) :
    expandInvocation env destructDef.name T
      = some (defaultedDtorTokens T ++ instantiate T defaultDef.body) := by
  have hT₁ := lookupMacro_none_of_not_mem env [destructDef.name] T hT
  have hT₂ := lookupMacro_none_of_not_mem env [defaultDef.name, destructDef.name] T hT
  have hinner : expand 248 env [destructDef.name] (invocation defaultDef.name T)
      = some (instantiate T defaultDef.body) := by
    apply expand_invocation env [destructDef.name] defaultDef "TypeName" T _ 245 hl₂ rfl rfl hT₁
    apply expand_macroFree
    · apply macroFree_substitute _ _ _ _ _ hfree
      simp [macroFree, hT₂]
    · rw [substitute_length]; decide
  have hpre : macroFree env [destructDef.name] (defaultedDtorTokens T) = true := by
    simp [macroFree, defaultedDtorTokens, hT₁, hd]
  have houter : expand 255 env [destructDef.name] (instantiate T destructDef.body)
      = some (defaultedDtorTokens T ++ instantiate T defaultDef.body) := by
    rw [instantiate_destruct]
    have h := expand_macroFree_append env [destructDef.name] (defaultedDtorTokens T)
      (invocation "DEFAULT_COPY_MOVE_ASSIGN" T) hpre 248
    have hlen : 248 + (defaultedDtorTokens T).length = 255 := rfl
    rw [hlen] at h
    rw [h]
    have hinner' : expand 248 env [destructDef.name] (invocation "DEFAULT_COPY_MOVE_ASSIGN" T)
        = some (instantiate T defaultDef.body) := hinner
    rw [hinner']
    rfl
  exact expand_invocation env [] destructDef "TypeName" T _ 253 hl rfl rfl
    (lookupMacro_none_of_not_mem env [] T hT) houter

theorem expand_DISALLOW (T : String) (hT : isTypeName headerMacros T = true) :
    DISALLOW_COPY_MOVE_ASSIGN T = some (instantiate T disallowDef.body) :=
  expandInvocation_macroFree headerMacros disallowDef T (by decide) rfl rfl
    (typeName_not_mem hT) (by decide) (by decide)

theorem expand_DEFAULT (T : String) (hT : isTypeName headerMacros T = true) :
    DEFAULT_COPY_MOVE_ASSIGN T = some (instantiate T defaultDef.body) :=
  expandInvocation_macroFree headerMacros defaultDef T (by decide) rfl rfl
    (typeName_not_mem hT) (by decide) (by decide)

theorem expand_DESTRUCT (T : String) (hT : isTypeName headerMacros T = true) :
    DEFAULT_COPY_MOVE_ASSIGN_DESTRUCT T
      = some (defaultedDtorTokens T ++ instantiate T defaultDef.body) :=
  expandInvocation_destruct headerMacros T (by decide) (by decide) (by decide) (by decide)
    (typeName_not_mem hT)

theorem declaredBy_DISALLOW (T : String) (hT : isTypeName headerMacros T = true) :
    declaredBy T (DISALLOW_COPY_MOVE_ASSIGN T) =
      some
        [ ⟨SpecialMember.copyCtor, ParamForm.constLRef, [], false, BodyKind.deleted⟩,
          ⟨SpecialMember.copyAssign, ParamForm.constLRef, [Token.ident "void"], false,
            BodyKind.deleted⟩,
          ⟨SpecialMember.moveCtor, ParamForm.rref, [], false, BodyKind.deleted⟩,
          ⟨SpecialMember.moveAssign, ParamForm.rref, [Token.ident "void"], false,
            BodyKind.deleted⟩ ] := by
  rw [expand_DISALLOW T hT]
  exact declarations_disallow T (typeName_ne_const hT)

theorem declaredBy_DEFAULT (T : String) (hT : isTypeName headerMacros T = true) :
    declaredBy T (DEFAULT_COPY_MOVE_ASSIGN T) =
      some
        [ ⟨SpecialMember.copyCtor, ParamForm.constLRef, [], false, BodyKind.defaulted⟩,
          ⟨SpecialMember.moveCtor, ParamForm.rref, [], true, BodyKind.defaulted⟩,
          ⟨SpecialMember.copyAssign, ParamForm.constLRef, [Token.ident T, Token.punct "&"],
            false, BodyKind.defaulted⟩,
          ⟨SpecialMember.moveAssign, ParamForm.rref, [Token.ident T, Token.punct "&"],
            true, BodyKind.defaulted⟩ ] := by
  rw [expand_DEFAULT T hT]
  exact declarations_default T (typeName_ne_const hT)

theorem declaredBy_DESTRUCT (T : String) (hT : isTypeName headerMacros T = true) :
    declaredBy T (DEFAULT_COPY_MOVE_ASSIGN_DESTRUCT T) =
      some
        [ ⟨SpecialMember.dtor, ParamForm.empty, [], false, BodyKind.defaulted⟩,
          ⟨SpecialMember.copyCtor, ParamForm.constLRef, [], false, BodyKind.defaulted⟩,
          ⟨SpecialMember.moveCtor, ParamForm.rref, [], true, BodyKind.defaulted⟩,
          ⟨SpecialMember.copyAssign, ParamForm.constLRef, [Token.ident T, Token.punct "&"],
            false, BodyKind.defaulted⟩,
          ⟨SpecialMember.moveAssign, ParamForm.rref, [Token.ident T, Token.punct "&"],
            true, BodyKind.defaulted⟩ ] := by
  rw [expand_DESTRUCT T hT]
  exact memberDeclarations_append T _ _ _ _ (declarations_dtor T)
    (declarations_default T (typeName_ne_const hT))

/-! ## Classes: general facts -/

theorem find_skip_noCopyMove (before rest : List MemberDecl) (k : SpecialMember)
    (hb : declaresNoCopyMove before = true) (hk : k ∈ copyMoveMembers) :
    (before ++ rest).find? (fun d => d.member == k) = rest.find? (fun d => d.member == k) := by
  induction before with
  | nil => rfl
  | cons d ds ih =>
    simp only [declaresNoCopyMove, List.all_cons, Bool.and_eq_true, Bool.or_eq_true,
      beq_iff_eq] at hb
    have hd : (d.member == k) = false := by
      rw [beq_eq_false_iff_ne]
      intro h
      rw [h] at hb
      simp only [copyMoveMembers, List.mem_cons, List.mem_singleton, List.not_mem_nil,
        or_false] at hk
      rcases hk with h | h | h | h <;> rw [h] at hb <;> simp at hb
    rw [List.cons_append, List.find?_cons, hd]
    exact ih (by simpa [declaresNoCopyMove] using hb.2)

theorem declaresNoCopyMove_left (before after : List MemberDecl)
    (h : declaresNoCopyMove (before ++ after) = true) : declaresNoCopyMove before = true := by
  unfold declaresNoCopyMove at h ⊢
  rw [List.all_append, Bool.and_eq_true] at h
  exact h.1

theorem userDeclared_classWith (T : String) (subs : List Subobject) (other : Bool)
    (before ds after : List MemberDecl) (k : SpecialMember) (d : MemberDecl)
    (hb : declaresNoCopyMove before = true) (hk : k ∈ copyMoveMembers)
    (hd : ds.find? (fun d => d.member == k) = some d) :
    userDeclared ⟨T, subs, other, before ++ ds ++ after⟩ k = some d := by
  unfold userDeclared
  simp only [List.append_assoc]
  rw [find_skip_noCopyMove before _ k hb hk, List.find?_append, hd]
  rfl

theorem macroNames_eq : macroNames =
    ["DISALLOW_COPY_MOVE_ASSIGN", "DEFAULT_COPY_MOVE_ASSIGN",
      "DEFAULT_COPY_MOVE_ASSIGN_DESTRUCT"] := by
  decide

theorem redeclared_of_split (pre post : List MemberDecl) (d d' : MemberDecl)
    (hm : d' ∈ post) (hs : sameSignature d d' = true) :
    redeclared (pre ++ d :: post) = true := by
  induction pre with
  | nil =>
    simp only [List.nil_append, redeclared, Bool.or_eq_true, List.any_eq_true]
    exact Or.inl ⟨d', hm, hs⟩
  | cons x xs ih =>
    simp only [List.cons_append, redeclared, Bool.or_eq_true]
    exact Or.inr ih

theorem redeclared_of_mem_both (xs ys before mid after : List MemberDecl) (d d' : MemberDecl)
    (hd : d ∈ xs) (hd' : d' ∈ ys) (hs : sameSignature d d' = true) :
    redeclared (before ++ xs ++ mid ++ ys ++ after) = true := by
  obtain ⟨p, q, rfl⟩ := List.append_of_mem hd
  have h := redeclared_of_split (before ++ p) (q ++ mid ++ ys ++ after) d d'
    (by simp [hd']) hs
  simpa [List.append_assoc] using h

/-! ## Sub-environments -/

theorem find_filter_of_imp (env : List MacroDef) (p q : MacroDef → Bool)
    (h : ∀ m ∈ env, q m = true → p m = true) :
    (env.filter p).find? q = env.find? q := by
  induction env with
  | nil => rfl
  | cons m ms ih =>
    have ih' := ih (fun x hx => h x (List.mem_cons_of_mem m hx))
    by_cases hq : q m = true
    · have hp := h m (List.mem_cons_self m ms) hq
      simp [List.filter, hp, List.find?, hq]
    · have hq' : q m = false := by simpa using hq
      by_cases hp : p m = true
      · simp [List.filter, hp, List.find?, hq', ih']
      · have hp' : p m = false := by simpa using hp
        simp [List.filter, hp', List.find?, hq', ih']

theorem find_filter_none (env : List MacroDef) (p q : MacroDef → Bool)
    (h : env.find? q = none) : (env.filter p).find? q = none := by
  rw [List.find?_eq_none] at h ⊢
  intro m hm
  exact h m (List.mem_filter.mp hm).1

theorem find_filter_excluded (env : List MacroDef) (p q : MacroDef → Bool)
    (h : ∀ m ∈ env, q m = true → p m = false) : (env.filter p).find? q = none := by
  rw [List.find?_eq_none]
  intro m hm hq
  have hmem := List.mem_filter.mp hm
  have := h m hmem.1 hq
  rw [hmem.2] at this
  exact Bool.noConfusion this

theorem lookupMacro_filter_kept (env : List MacroDef) (p : MacroDef → Bool)
    (hidden : List String) (n : String) (h : ∀ m ∈ env, m.name = n → p m = true) :
    lookupMacro (env.filter p) hidden n = lookupMacro env hidden n := by
  unfold lookupMacro
  rw [find_filter_of_imp env p _ (fun m hm hq => h m hm (by simpa using hq))]

theorem lookupMacro_filter_none (env : List MacroDef) (p : MacroDef → Bool)
    (hidden : List String) (n : String) (h : lookupMacro env hidden n = none) :
    lookupMacro (env.filter p) hidden n = none := by
  unfold lookupMacro at h ⊢
  split
  · rfl
  · rename_i hn
    rw [if_neg hn] at h
    exact find_filter_none env p _ h

theorem lookupMacro_filter_excluded (env : List MacroDef) (p : MacroDef → Bool)
    (hidden : List String) (n : String) (h : ∀ m ∈ env, m.name = n → p m = false) :
    lookupMacro (env.filter p) hidden n = none := by
  unfold lookupMacro
  split
  · rfl
  · exact find_filter_excluded env p _ (fun m hm hq => h m hm (by simpa using hq))

theorem macroFree_filter (env : List MacroDef) (p : MacroDef → Bool) (hidden : List String)
    (toks : List Token) (h : macroFree env hidden toks = true) :
    macroFree (env.filter p) hidden toks = true := by
  unfold macroFree at h ⊢
  rw [List.all_eq_true] at h ⊢
  intro t ht
  have := h t ht
  cases t with
  | ident n =>
    simp only [Option.isNone_iff_eq_none] at this ⊢
    exact lookupMacro_filter_none env p hidden n this
  | number s => rfl
  | punct s => rfl
  | space => rfl

theorem typeName_not_mem_filter {T : String} (hT : isTypeName headerMacros T = true)
    (p : MacroDef → Bool) : T ∉ (headerMacros.filter p).map (fun m => m.name) := by
  intro h
  apply typeName_not_mem hT
  rw [List.mem_map] at h ⊢
  obtain ⟨m, hm, hn⟩ := h
  exact ⟨m, (List.mem_filter.mp hm).1, hn⟩

theorem find_skip_mid (before ds after : List MemberDecl) (p : MemberDecl → Bool)
    (h : ∀ d ∈ ds, p d = false) :
    (before ++ ds ++ after).find? p = (before ++ after).find? p := by
  have hds : ds.find? p = none := by
    rw [List.find?_eq_none]
    intro d hd
    rw [h d hd]
    exact Bool.false_ne_true
  simp [List.find?_append, hds]

/-- Why the argument must not be the name of a macro in force: in
`DISALLOW_COPY_MOVE_ASSIGN(DEFAULT_COPY_MOVE_ASSIGN)` the argument is followed
by a parenthesis in the replacement list and is itself replaced on rescanning;
what comes out is not a sequence of member declarations. -/
theorem macro_name_as_argument :
    isTypeName headerMacros "DEFAULT_COPY_MOVE_ASSIGN" = false
      ∧ (DISALLOW_COPY_MOVE_ASSIGN "DEFAULT_COPY_MOVE_ASSIGN").isSome = true
      ∧ DISALLOW_COPY_MOVE_ASSIGN "DEFAULT_COPY_MOVE_ASSIGN"
          ≠ some (instantiate "DEFAULT_COPY_MOVE_ASSIGN" disallowDef.body)
      ∧ declaredBy "DEFAULT_COPY_MOVE_ASSIGN"
          (DISALLOW_COPY_MOVE_ASSIGN "DEFAULT_COPY_MOVE_ASSIGN") = none := by
  decide

/-- Without the empty line 16 the continuation at the end of line 15 would
join the third `#define` to the second definition, and the header would make
two definitions only. -/
theorem without_line_16_two_definitions :
    (definitions (macros_h.eraseIdx 15)).map (fun m => m.name)
      = ["DISALLOW_COPY_MOVE_ASSIGN", "DEFAULT_COPY_MOVE_ASSIGN"] := by
  decide

/-! ## The claims -/

/-- C3: the expansion of `DEFAULT_COPY_MOVE_ASSIGN_DESTRUCT(T)` is the tokens
of the single declaration `~T() = default;` followed by exactly the expansion
of `DEFAULT_COPY_MOVE_ASSIGN(T)`; it declares a defaulted destructor, then
the same four declarations as `DEFAULT_COPY_MOVE_ASSIGN(T)`, and nothing
else. -/
theorem destruct_is_dtor_then_default (T : String) (hT : isTypeName headerMacros T = true) :
    ∃ e, DEFAULT_COPY_MOVE_ASSIGN T = some e
      ∧ DEFAULT_COPY_MOVE_ASSIGN_DESTRUCT T = some (defaultedDtorTokens T ++ e)
      ∧ memberDeclarations T (defaultedDtorTokens T) = some [dtorDecl]
      ∧ dtorDecl.shape = (SpecialMember.dtor, ParamForm.empty, false, BodyKind.defaulted)
      ∧ ∃ ds, declaredBy T (DEFAULT_COPY_MOVE_ASSIGN T) = some ds
          ∧ declaredBy T (DEFAULT_COPY_MOVE_ASSIGN_DESTRUCT T) = some (dtorDecl :: ds) :=
  ⟨_, expand_DEFAULT T hT, expand_DESTRUCT T hT, declarations_dtor T, rfl,
    _, declaredBy_DEFAULT T hT, declaredBy_DESTRUCT T hT⟩

/-- C3 at the class name `Widget`. -/
theorem destruct_is_dtor_then_default_witness :
    ∃ e, DEFAULT_COPY_MOVE_ASSIGN "Widget" = some e
      ∧ DEFAULT_COPY_MOVE_ASSIGN_DESTRUCT "Widget" = some (defaultedDtorTokens "Widget" ++ e) := by
  obtain ⟨e, h₁, h₂, -⟩ := destruct_is_dtor_then_default "Widget" (by decide)
  exact ⟨e, h₁, h₂⟩

/-- C4: for any two different macros of the header, the expansions for the
same class name, put together, declare the copy constructor `T(const T&)`
twice; a class body that holds both expansions, wherever they stand,
redeclares a member function and is ill-formed. -/
theorem two_variants_redeclare (T : String) (hT : isTypeName headerMacros T = true)
    (m₁ m₂ : String) (h₁ : m₁ ∈ macroNames) (h₂ : m₂ ∈ macroNames) (hne : m₁ ≠ m₂) :
    ∃ e₁ e₂ ds₁ ds₂,
      expandInvocation headerMacros m₁ T = some e₁
        ∧ expandInvocation headerMacros m₂ T = some e₂
        ∧ memberDeclarations T e₁ = some ds₁ ∧ memberDeclarations T e₂ = some ds₂
        ∧ memberDeclarations T (e₁ ++ e₂) = some (ds₁ ++ ds₂)
        ∧ ((ds₁ ++ ds₂).filter (fun d => d.member == SpecialMember.copyCtor
              && d.param == ParamForm.constLRef)).length = 2
        ∧ redeclared (ds₁ ++ ds₂) = true
        ∧ ∀ before mid after : List MemberDecl,
            redeclared (before ++ ds₁ ++ mid ++ ds₂ ++ after) = true := by
  have hA := expand_DISALLOW T hT
  have hB := expand_DEFAULT T hT
  have hC := expand_DESTRUCT T hT
  have dA := declarations_disallow T (typeName_ne_const hT)
  have dB := declarations_default T (typeName_ne_const hT)
  have dC := memberDeclarations_append T _ _ _ _ (declarations_dtor T) dB
  have copyA : (⟨SpecialMember.copyCtor, ParamForm.constLRef, [], false, BodyKind.deleted⟩
      : MemberDecl) ∈ disallowDecls := by simp [disallowDecls]
  have copyB : (⟨SpecialMember.copyCtor, ParamForm.constLRef, [], false, BodyKind.defaulted⟩
      : MemberDecl) ∈ defaultDecls T := by simp [defaultDecls]
  have copyC : (⟨SpecialMember.copyCtor, ParamForm.constLRef, [], false, BodyKind.defaulted⟩
      : MemberDecl) ∈ [dtorDecl] ++ defaultDecls T := by simp [defaultDecls]
  rw [macroNames_eq] at h₁ h₂
  simp only [List.mem_cons, List.mem_singleton, List.not_mem_nil, or_false] at h₁ h₂
  rcases h₁ with rfl | rfl | rfl <;> rcases h₂ with rfl | rfl | rfl
  · exact absurd rfl hne
  · exact ⟨_, _, _, _, hA, hB, dA, dB, memberDeclarations_append T _ _ _ _ dA dB, rfl, rfl,
      fun before mid after => redeclared_of_mem_both _ _ before mid after _ _ copyA copyB rfl⟩
  · exact ⟨_, _, _, _, hA, hC, dA, dC, memberDeclarations_append T _ _ _ _ dA dC, rfl, rfl,
      fun before mid after => redeclared_of_mem_both _ _ before mid after _ _ copyA copyC rfl⟩
  · exact ⟨_, _, _, _, hB, hA, dB, dA, memberDeclarations_append T _ _ _ _ dB dA, rfl, rfl,
      fun before mid after => redeclared_of_mem_both _ _ before mid after _ _ copyB copyA rfl⟩
  · exact absurd rfl hne
  · exact ⟨_, _, _, _, hB, hC, dB, dC, memberDeclarations_append T _ _ _ _ dB dC, rfl, rfl,
      fun before mid after => redeclared_of_mem_both _ _ before mid after _ _ copyB copyC rfl⟩
  · exact ⟨_, _, _, _, hC, hA, dC, dA, memberDeclarations_append T _ _ _ _ dC dA, rfl, rfl,
      fun before mid after => redeclared_of_mem_both _ _ before mid after _ _ copyC copyA rfl⟩
  · exact ⟨_, _, _, _, hC, hB, dC, dB, memberDeclarations_append T _ _ _ _ dC dB, rfl, rfl,
      fun before mid after => redeclared_of_mem_both _ _ before mid after _ _ copyC copyB rfl⟩
  · exact absurd rfl hne

/-- C4 at the class name `Widget`, for the two macros
`DISALLOW_COPY_MOVE_ASSIGN` and `DEFAULT_COPY_MOVE_ASSIGN_DESTRUCT`. -/
theorem two_variants_redeclare_witness :
    ∃ e₁ e₂ ds₁ ds₂,
      expandInvocation headerMacros "DISALLOW_COPY_MOVE_ASSIGN" "Widget" = some e₁
        ∧ expandInvocation headerMacros "DEFAULT_COPY_MOVE_ASSIGN_DESTRUCT" "Widget" = some e₂
        ∧ memberDeclarations "Widget" e₁ = some ds₁
        ∧ memberDeclarations "Widget" e₂ = some ds₂
        ∧ redeclared (ds₁ ++ ds₂) = true := by
  obtain ⟨e₁, e₂, ds₁, ds₂, h₁, h₂, h₃, h₄, -, -, h₅, -⟩ :=
    two_variants_redeclare "Widget" (by decide) "DISALLOW_COPY_MOVE_ASSIGN"
      "DEFAULT_COPY_MOVE_ASSIGN_DESTRUCT" (by decide) (by decide) (by decide)
  exact ⟨e₁, e₂, ds₁, ds₂, h₁, h₂, h₃, h₄, h₅⟩

/-- C6, counterexample: the replacement list of
`DEFAULT_COPY_MOVE_ASSIGN_DESTRUCT` names `DEFAULT_COPY_MOVE_ASSIGN`; when the
latter is not defined, `DEFAULT_COPY_MOVE_ASSIGN_DESTRUCT(Widget)` expands to
`~Widget() = default; DEFAULT_COPY_MOVE_ASSIGN(Widget)`, which is not its
expansion under the whole header. -/
theorem destruct_depends_on_default :
    (lookupMacro headerMacros [] "DEFAULT_COPY_MOVE_ASSIGN_DESTRUCT").map
        (fun m => refersTo m "DEFAULT_COPY_MOVE_ASSIGN") = some true
      ∧ expandInvocation (restrictTo "DEFAULT_COPY_MOVE_ASSIGN_DESTRUCT" [])
          "DEFAULT_COPY_MOVE_ASSIGN_DESTRUCT" "Widget"
          = some (defaultedDtorTokens "Widget" ++ invocation "DEFAULT_COPY_MOVE_ASSIGN" "Widget")
      ∧ expandInvocation (restrictTo "DEFAULT_COPY_MOVE_ASSIGN_DESTRUCT" [])
          "DEFAULT_COPY_MOVE_ASSIGN_DESTRUCT" "Widget"
          ≠ DEFAULT_COPY_MOVE_ASSIGN_DESTRUCT "Widget" := by
  decide

/-- C6, amended: the replacement lists of `DISALLOW_COPY_MOVE_ASSIGN` and
`DEFAULT_COPY_MOVE_ASSIGN` name no macro of the header, and the expansion of
each is the same whichever of the other macros are defined.  The replacement
list of `DEFAULT_COPY_MOVE_ASSIGN_DESTRUCT` names `DEFAULT_COPY_MOVE_ASSIGN`
and no other macro: its expansion is the same whether or not
`DISALLOW_COPY_MOVE_ASSIGN` is defined as long as `DEFAULT_COPY_MOVE_ASSIGN`
is defined, and is `~T() = default; DEFAULT_COPY_MOVE_ASSIGN(T)`, with the
inner invocation left unexpanded, when it is not. -/
theorem expansions_and_other_definitions (T : String) (hT : isTypeName headerMacros T = true)
    (defined : List String) :
    (∀ m ∈ headerMacros, m.name ≠ "DEFAULT_COPY_MOVE_ASSIGN_DESTRUCT" →
        (∀ other ∈ macroNames, refersTo m other = false)
          ∧ expandInvocation (restrictTo m.name defined) m.name T
              = expandInvocation headerMacros m.name T)
      ∧ (∀ m ∈ headerMacros, m.name = "DEFAULT_COPY_MOVE_ASSIGN_DESTRUCT" →
          (∀ other ∈ macroNames, refersTo m other = (other == "DEFAULT_COPY_MOVE_ASSIGN"))
            ∧ ("DEFAULT_COPY_MOVE_ASSIGN" ∈ defined →
                expandInvocation (restrictTo m.name defined) m.name T
                  = expandInvocation headerMacros m.name T)
            ∧ ("DEFAULT_COPY_MOVE_ASSIGN" ∉ defined →
                expandInvocation (restrictTo m.name defined) m.name T
                  = some (defaultedDtorTokens T
                      ++ invocation "DEFAULT_COPY_MOVE_ASSIGN" T))) := by
  have hmem : ∀ m ∈ headerMacros, m = disallowDef ∨ m = defaultDef ∨ m = destructDef := by
    intro m hm
    rw [headerMacros_eq] at hm
    simpa using hm
  have hkeep : ∀ (n : String) (ds : List String), ∀ m ∈ headerMacros, m.name = n →
      (fun m : MacroDef => m.name == n || ds.contains m.name) m = true := by
    intro n ds m _ hn
    simp [hn]
  have hA : expandInvocation headerMacros disallowDef.name T
      = some (instantiate T disallowDef.body) := expand_DISALLOW T hT
  have hB : expandInvocation headerMacros defaultDef.name T
      = some (instantiate T defaultDef.body) := expand_DEFAULT T hT
  have hC : expandInvocation headerMacros destructDef.name T
      = some (defaultedDtorTokens T ++ instantiate T defaultDef.body) := expand_DESTRUCT T hT
  refine ⟨?_, ?_⟩
  · intro m hm hne
    rcases hmem m hm with rfl | rfl | rfl
    · have hl : lookupMacro (restrictTo disallowDef.name defined) [] disallowDef.name
          = some disallowDef := by
        rw [restrictTo, lookupMacro_filter_kept _ _ _ _ (hkeep _ defined)]
        decide
      refine ⟨by decide, ?_⟩
      rw [hA]
      exact expandInvocation_macroFree _ disallowDef T hl rfl rfl
        (typeName_not_mem_filter hT _) (macroFree_filter _ _ _ _ (by decide)) (by decide)
    · have hl : lookupMacro (restrictTo defaultDef.name defined) [] defaultDef.name
          = some defaultDef := by
        rw [restrictTo, lookupMacro_filter_kept _ _ _ _ (hkeep _ defined)]
        decide
      refine ⟨by decide, ?_⟩
      rw [hB]
      exact expandInvocation_macroFree _ defaultDef T hl rfl rfl
        (typeName_not_mem_filter hT _) (macroFree_filter _ _ _ _ (by decide)) (by decide)
    · exact absurd rfl hne
  · intro m hm hname
    rcases hmem m hm with rfl | rfl | rfl
    · exact absurd hname (by decide)
    · exact absurd hname (by decide)
    · have hl : lookupMacro (restrictTo destructDef.name defined) [] destructDef.name
          = some destructDef := by
        rw [restrictTo, lookupMacro_filter_kept _ _ _ _ (hkeep _ defined)]
        decide
      refine ⟨by decide, ?_, ?_⟩
      · intro hdef
        rw [hC]
        apply expandInvocation_destruct _ T hl _
          (lookupMacro_filter_none _ _ _ _ (by decide))
          (macroFree_filter _ _ _ _ (by decide)) (typeName_not_mem_filter hT _)
        rw [restrictTo, lookupMacro_filter_kept]
        · decide
        · intro d _ hd
          have hc : defined.contains d.name = true := by
            rw [hd]
            exact List.elem_eq_true_of_mem hdef
          show (d.name == destructDef.name || defined.contains d.name) = true
          rw [hc, Bool.or_true]
      · intro hdef
        have hnone : lookupMacro (restrictTo destructDef.name defined) [destructDef.name]
            "DEFAULT_COPY_MOVE_ASSIGN" = none := by
          rw [restrictTo]
          apply lookupMacro_filter_excluded
          intro d _ hd
          have hc : defined.contains d.name = false := by
            rw [hd]
            cases h : defined.contains "DEFAULT_COPY_MOVE_ASSIGN" with
            | false => rfl
            | true => exact absurd (List.mem_of_elem_eq_true h) hdef
          have hn : (d.name == destructDef.name) = false := by
            rw [hd]
            decide
          show (d.name == destructDef.name || defined.contains d.name) = false
          rw [hc, hn]
          rfl
        have hfree : macroFree (restrictTo destructDef.name defined) [destructDef.name]
            destructDef.body = true := by
          have h₁ : lookupMacro (restrictTo destructDef.name defined) [destructDef.name]
              "TypeName" = none := lookupMacro_filter_none _ _ _ _ (by decide)
          have h₂ : lookupMacro (restrictTo destructDef.name defined) [destructDef.name]
              "default" = none := lookupMacro_filter_none _ _ _ _ (by decide)
          show List.all destructDef.body _ = true
          simp only [destructDef, List.all_cons, List.all_nil, Bool.and_true, Bool.true_and,
            Bool.and_eq_true, Option.isNone_iff_eq_none]
          exact ⟨h₁, h₂, hnone, h₁⟩
        rw [← instantiate_destruct]
        exact expandInvocation_macroFree _ destructDef T hl rfl rfl
          (typeName_not_mem_filter hT _) hfree (by decide)

/-- C6, amended, at the class name `Widget` with none of the other macros
defined. -/
theorem expansions_and_other_definitions_witness :
    expandInvocation (restrictTo "DISALLOW_COPY_MOVE_ASSIGN" []) "DISALLOW_COPY_MOVE_ASSIGN"
        "Widget" = DISALLOW_COPY_MOVE_ASSIGN "Widget"
      ∧ expandInvocation (restrictTo "DEFAULT_COPY_MOVE_ASSIGN" []) "DEFAULT_COPY_MOVE_ASSIGN"
        "Widget" = DEFAULT_COPY_MOVE_ASSIGN "Widget" :=
  ⟨((expansions_and_other_definitions "Widget" (by decide) []).1 disallowDef
      (by decide) (by decide)).2,
    ((expansions_and_other_definitions "Widget" (by decide) []).1 defaultDef
      (by decide) (by decide)).2⟩

/-- C7: after line splicing the header makes exactly three definitions,
`DISALLOW_COPY_MOVE_ASSIGN`, `DEFAULT_COPY_MOVE_ASSIGN` and
`DEFAULT_COPY_MOVE_ASSIGN_DESTRUCT`, each function-like with the one parameter
`TypeName`.  The continuation at the end of line 15 joins only the empty line
16 to the second definition, and the one at the end of line 19 joins nothing
to the third: lines 11-16 and lines 17-19 each form one logical line, the
definition read from those lines alone is the one the header makes, and no
replacement list holds a `#` or the word `define`.  The expansion of each
macro is a fixed token sequence with the argument put in place of `TypeName`,
and the member, parameter list, `noexcept` and body of the declarations it
makes are the same for every class name. -/
theorem header_defines_three_templates :
    macros_h.length = 19
      ∧ definitions macros_h = [disallowDef, defaultDef, destructDef]
      ∧ (definitions macros_h).map (fun m => (m.name, m.functionLike, m.params)) =
          [ ("DISALLOW_COPY_MOVE_ASSIGN", true, ["TypeName"]),
            ("DEFAULT_COPY_MOVE_ASSIGN", true, ["TypeName"]),
            ("DEFAULT_COPY_MOVE_ASSIGN_DESTRUCT", true, ["TypeName"]) ]
      ∧ logicalLines macros_h =
          logicalLines (macros_h.take 10) ++ logicalLines ((macros_h.drop 10).take 6)
            ++ logicalLines (macros_h.drop 16)
      ∧ (logicalLines ((macros_h.drop 10).take 6)).length = 1
      ∧ (logicalLines (macros_h.drop 16)).length = 1
      ∧ definitions ((macros_h.drop 10).take 6) = [defaultDef]
      ∧ definitions (macros_h.drop 16) = [destructDef]
      ∧ (∀ m ∈ definitions macros_h,
          m.body.contains (Token.punct "#") = false
            ∧ m.body.contains (Token.ident "define") = false)
      ∧ ∀ n ∈ macroNames,
          ∃ (template : List Token) (shapes : List (SpecialMember × ParamForm × Bool × BodyKind)),
            ∀ T, isTypeName headerMacros T = true →
              expandInvocation headerMacros n T = some (instantiate T template)
                ∧ (declaredBy T (expandInvocation headerMacros n T)).map
                    (List.map MemberDecl.shape) = some shapes := by
  refine ⟨by decide, by decide, by decide, by decide, by decide, by decide, by decide,
    by decide, by decide, ?_⟩
  intro n hn
  rw [macroNames_eq] at hn
  simp only [List.mem_cons, List.mem_singleton, List.not_mem_nil, or_false] at hn
  rcases hn with rfl | rfl | rfl
  · refine ⟨disallowDef.body, disallowDecls.map MemberDecl.shape, fun T hT => ?_⟩
    have h := declaredBy_DISALLOW T hT
    have h' : declaredBy T (expandInvocation headerMacros "DISALLOW_COPY_MOVE_ASSIGN" T)
        = some disallowDecls := h
    exact ⟨expand_DISALLOW T hT, by rw [h']; rfl⟩
  · refine ⟨defaultDef.body, (defaultDecls "TypeName").map MemberDecl.shape, fun T hT => ?_⟩
    have h := declaredBy_DEFAULT T hT
    have h' : declaredBy T (expandInvocation headerMacros "DEFAULT_COPY_MOVE_ASSIGN" T)
        = some (defaultDecls T) := h
    exact ⟨expand_DEFAULT T hT, by rw [h']; rfl⟩
  · refine ⟨defaultedDtorTokens "TypeName" ++ defaultDef.body,
      (dtorDecl :: defaultDecls "TypeName").map MemberDecl.shape, fun T hT => ?_⟩
    have h := declaredBy_DESTRUCT T hT
    have h' : declaredBy T
        (expandInvocation headerMacros "DEFAULT_COPY_MOVE_ASSIGN_DESTRUCT" T)
        = some (dtorDecl :: defaultDecls T) := h
    exact ⟨expand_DESTRUCT T hT, by rw [h']; rfl⟩

/-- C7 at the class names `Widget` and `Gadget`: the declarations that
`DEFAULT_COPY_MOVE_ASSIGN_DESTRUCT` makes for the two have the same shapes, in
the same order. -/
theorem header_defines_three_templates_witness :
    (declaredBy "Widget" (DEFAULT_COPY_MOVE_ASSIGN_DESTRUCT "Widget")).map
        (List.map MemberDecl.shape)
      = (declaredBy "Gadget" (DEFAULT_COPY_MOVE_ASSIGN_DESTRUCT "Gadget")).map
        (List.map MemberDecl.shape) := by
  obtain ⟨_, _, h⟩ := header_defines_three_templates.2.2.2.2.2.2.2.2.2
    "DEFAULT_COPY_MOVE_ASSIGN_DESTRUCT" (by decide)
  exact ((h "Widget" (by decide)).2).trans ((h "Gadget" (by decide)).2).symm

/-- C8: in the expansions of `DEFAULT_COPY_MOVE_ASSIGN(T)` and of
`DEFAULT_COPY_MOVE_ASSIGN_DESTRUCT(T)` the move constructor and the move
assignment are declared with a bare `noexcept`, the copy constructor and the
copy assignment without one; in a class whose body holds either expansion and
declares no other copy or move member, the move operations are therefore
non-throwing whatever its subobjects are. -/
theorem move_members_are_noexcept (T : String) (hT : isTypeName headerMacros T = true)
    (subs : List Subobject) (other : Bool) (before after : List MemberDecl)
    (hrest : declaresNoCopyMove (before ++ after) = true) :
    (∃ ds, declaredBy T (DEFAULT_COPY_MOVE_ASSIGN T) = some ds
        ∧ ds.map (fun d => (d.member, d.isNoexcept)) =
            [ (SpecialMember.copyCtor, false), (SpecialMember.moveCtor, true),
              (SpecialMember.copyAssign, false), (SpecialMember.moveAssign, true) ])
      ∧ (∃ ds, declaredBy T (DEFAULT_COPY_MOVE_ASSIGN_DESTRUCT T) = some ds
          ∧ ds.map (fun d => (d.member, d.isNoexcept)) =
              [ (SpecialMember.dtor, false), (SpecialMember.copyCtor, false),
                (SpecialMember.moveCtor, true), (SpecialMember.copyAssign, false),
                (SpecialMember.moveAssign, true) ])
      ∧ ∀ e ∈ [DEFAULT_COPY_MOVE_ASSIGN T, DEFAULT_COPY_MOVE_ASSIGN_DESTRUCT T],
          ∃ c, classWith T subs other before e after = some c
            ∧ (userDeclared c SpecialMember.copyCtor).map (fun d => d.isNoexcept) = some false
            ∧ (userDeclared c SpecialMember.copyAssign).map (fun d => d.isNoexcept) = some false
            ∧ (userDeclared c SpecialMember.moveCtor).map (fun d => d.isNoexcept) = some true
            ∧ (userDeclared c SpecialMember.moveAssign).map (fun d => d.isNoexcept) = some true
            ∧ isNothrow c SpecialMember.moveCtor = some true
            ∧ isNothrow c SpecialMember.moveAssign = some true := by
  have hb := declaresNoCopyMove_left before after hrest
  refine ⟨⟨_, declaredBy_DEFAULT T hT, rfl⟩, ⟨_, declaredBy_DESTRUCT T hT, rfl⟩, ?_⟩
  intro e he
  simp only [List.mem_cons, List.mem_singleton, List.not_mem_nil, or_false] at he
  rcases he with rfl | rfl
  · refine ⟨⟨T, subs, other, before ++ defaultDecls T ++ after⟩, ?_, ?_⟩
    · rw [classWith, declaredBy_DEFAULT T hT]; rfl
    · have h₁ := userDeclared_classWith T subs other before (defaultDecls T) after
        SpecialMember.copyCtor _ hb (by decide) rfl
      have h₂ := userDeclared_classWith T subs other before (defaultDecls T) after
        SpecialMember.copyAssign _ hb (by decide) rfl
      have h₃ := userDeclared_classWith T subs other before (defaultDecls T) after
        SpecialMember.moveCtor _ hb (by decide) rfl
      have h₄ := userDeclared_classWith T subs other before (defaultDecls T) after
        SpecialMember.moveAssign _ hb (by decide) rfl
      refine ⟨?_, ?_, ?_, ?_, ?_, ?_⟩
      · rw [h₁]; rfl
      · rw [h₂]; rfl
      · rw [h₃]; rfl
      · rw [h₄]; rfl
      · rw [isNothrow, h₃]; rfl
      · rw [isNothrow, h₄]; rfl
  · refine ⟨⟨T, subs, other, before ++ (dtorDecl :: defaultDecls T) ++ after⟩, ?_, ?_⟩
    · rw [classWith, declaredBy_DESTRUCT T hT]; rfl
    · have h₁ := userDeclared_classWith T subs other before (dtorDecl :: defaultDecls T) after
        SpecialMember.copyCtor _ hb (by decide) rfl
      have h₂ := userDeclared_classWith T subs other before (dtorDecl :: defaultDecls T) after
        SpecialMember.copyAssign _ hb (by decide) rfl
      have h₃ := userDeclared_classWith T subs other before (dtorDecl :: defaultDecls T) after
        SpecialMember.moveCtor _ hb (by decide) rfl
      have h₄ := userDeclared_classWith T subs other before (dtorDecl :: defaultDecls T) after
        SpecialMember.moveAssign _ hb (by decide) rfl
      refine ⟨?_, ?_, ?_, ?_, ?_, ?_⟩
      · rw [h₁]; rfl
      · rw [h₂]; rfl
      · rw [h₃]; rfl
      · rw [h₄]; rfl
      · rw [isNothrow, h₃]; rfl
      · rw [isNothrow, h₄]; rfl

/-- C8 at the class `Widget` with a data member whose move may throw: the move
constructor of `Widget` is non-throwing all the same. -/
theorem move_members_are_noexcept_witness :
    ∃ c, classWith "Widget" [mayThrowOnMove] false [] (DEFAULT_COPY_MOVE_ASSIGN "Widget") []
          = some c
      ∧ isNothrow c SpecialMember.moveCtor = some true := by
  obtain ⟨c, h₁, -, -, -, -, h₂, -⟩ :=
    (move_members_are_noexcept "Widget" (by decide) [mayThrowOnMove] false [] []
      (by decide)).2.2 (DEFAULT_COPY_MOVE_ASSIGN "Widget") (by simp)
  exact ⟨c, h₁, h₂⟩

/-- C9: none of the three expansions declares a default constructor, and only
that of `DEFAULT_COPY_MOVE_ASSIGN_DESTRUCT(T)` declares a destructor (the
expansions of the other two hold no `~` at all); a class body with the
expansion of `DISALLOW_COPY_MOVE_ASSIGN(T)` or of `DEFAULT_COPY_MOVE_ASSIGN(T)`
added has the destructor it has without it: the same user declaration or
implicit declaration, the same definition and the same exception
specification. -/
theorem only_destruct_declares_destructor (T : String)
    (hT : isTypeName headerMacros T = true) (subs : List Subobject) (other : Bool)
    (before after : List MemberDecl) :
    (∃ eA eB dsA dsB dsC,
        DISALLOW_COPY_MOVE_ASSIGN T = some eA ∧ DEFAULT_COPY_MOVE_ASSIGN T = some eB
          ∧ eA.contains (Token.punct "~") = false ∧ eB.contains (Token.punct "~") = false
          ∧ declaredBy T (DISALLOW_COPY_MOVE_ASSIGN T) = some dsA
          ∧ declaredBy T (DEFAULT_COPY_MOVE_ASSIGN T) = some dsB
          ∧ declaredBy T (DEFAULT_COPY_MOVE_ASSIGN_DESTRUCT T) = some dsC
          ∧ (dsA ++ dsB ++ dsC).all (fun d => d.member != SpecialMember.defaultCtor) = true
          ∧ (dsA ++ dsB).all (fun d => d.member != SpecialMember.dtor) = true
          ∧ dsC.map (fun d => d.member == SpecialMember.dtor)
              = [true, false, false, false, false])
      ∧ ∀ e ∈ [DISALLOW_COPY_MOVE_ASSIGN T, DEFAULT_COPY_MOVE_ASSIGN T],
          ∃ c, classWith T subs other before e after = some c
            ∧ userDeclared c SpecialMember.dtor
                = userDeclared ⟨T, subs, other, before ++ after⟩ SpecialMember.dtor
            ∧ implicitlyDeclared c SpecialMember.dtor
                = implicitlyDeclared ⟨T, subs, other, before ++ after⟩ SpecialMember.dtor
            ∧ provision c SpecialMember.dtor
                = provision ⟨T, subs, other, before ++ after⟩ SpecialMember.dtor
            ∧ isNothrow c SpecialMember.dtor
                = isNothrow ⟨T, subs, other, before ++ after⟩ SpecialMember.dtor := by
  have key : ∀ ds : List MemberDecl,
      (∀ d ∈ ds, (fun d : MemberDecl => d.member == SpecialMember.dtor) d = false) →
      userDeclared ⟨T, subs, other, before ++ ds ++ after⟩ SpecialMember.dtor
          = userDeclared ⟨T, subs, other, before ++ after⟩ SpecialMember.dtor := by
    intro ds hds
    exact find_skip_mid before ds after _ hds
  have rest : ∀ ds : List MemberDecl,
      userDeclared ⟨T, subs, other, before ++ ds ++ after⟩ SpecialMember.dtor
          = userDeclared ⟨T, subs, other, before ++ after⟩ SpecialMember.dtor →
      implicitlyDeclared ⟨T, subs, other, before ++ ds ++ after⟩ SpecialMember.dtor
          = implicitlyDeclared ⟨T, subs, other, before ++ after⟩ SpecialMember.dtor
        ∧ provision ⟨T, subs, other, before ++ ds ++ after⟩ SpecialMember.dtor
          = provision ⟨T, subs, other, before ++ after⟩ SpecialMember.dtor
        ∧ isNothrow ⟨T, subs, other, before ++ ds ++ after⟩ SpecialMember.dtor
          = isNothrow ⟨T, subs, other, before ++ after⟩ SpecialMember.dtor := by
    intro ds h
    have hi : implicitlyDeclared ⟨T, subs, other, before ++ ds ++ after⟩ SpecialMember.dtor
        = implicitlyDeclared ⟨T, subs, other, before ++ after⟩ SpecialMember.dtor := by
      simp only [implicitlyDeclared, declares, h]
    refine ⟨hi, ?_, ?_⟩
    · simp only [provision, h, hi]
      rfl
    · simp only [isNothrow, h, hi]
      rfl
  refine ⟨⟨_, _, _, _, _, expand_DISALLOW T hT, expand_DEFAULT T hT, rfl, rfl,
    declaredBy_DISALLOW T hT, declaredBy_DEFAULT T hT, declaredBy_DESTRUCT T hT,
    rfl, rfl, rfl⟩, ?_⟩
  intro e he
  simp only [List.mem_cons, List.mem_singleton, List.not_mem_nil, or_false] at he
  rcases he with rfl | rfl
  · refine ⟨⟨T, subs, other, before ++ disallowDecls ++ after⟩, ?_, ?_⟩
    · rw [classWith, declaredBy_DISALLOW T hT]; rfl
    · have h := key disallowDecls (by decide)
      exact ⟨h, rest _ h⟩
  · refine ⟨⟨T, subs, other, before ++ defaultDecls T ++ after⟩, ?_, ?_⟩
    · rw [classWith, declaredBy_DEFAULT T hT]; rfl
    · have h := key (defaultDecls T) (by simp [defaultDecls])
      exact ⟨h, rest _ h⟩

/-- C9 at the class `Widget`, which declares a user-provided destructor ahead
of `DISALLOW_COPY_MOVE_ASSIGN(Widget)`: the destructor stays user-provided. -/
theorem only_destruct_declares_destructor_witness :
    ∃ c, classWith "Widget" [] false
          [⟨SpecialMember.dtor, ParamForm.empty, [], false, BodyKind.declared⟩]
          (DISALLOW_COPY_MOVE_ASSIGN "Widget") [] = some c
      ∧ provision c SpecialMember.dtor = Provision.userProvided := by
  obtain ⟨c, h₁, -, -, h₂, -⟩ :=
    (only_destruct_declares_destructor "Widget" (by decide) [] false
      [⟨SpecialMember.dtor, ParamForm.empty, [], false, BodyKind.declared⟩] []).2
      (DISALLOW_COPY_MOVE_ASSIGN "Widget") (by simp)
  exact ⟨c, h₁, h₂.trans (by decide)⟩

end MacrosH
